import Mathlib

/-!
A shallow embedding of `artic/artic_mqc.py` (the MultiQC report generator of
this repository) together with theorems checking the specification claims
about it.  Python dicts are modelled as insertion-ordered association lists,
Python exceptions (`SystemExit`, `ValueError`, `IndexError`) as
`Except.error` carrying the offending string, Python `int` as `Int`, and the
float constant `0.95` as the exact rational `0.95 = 19/20`.  File input and
output and the tab-splitting of report lines are I/O; the functions below
receive the already-split rows, with each structure field annotated with the
column index the code reads.
-/

namespace ArticMqc

/-- One row of the primer scheme as produced by the external collaborator
`read_bed_file`:  the only fields `artic_mqc.py` reads are `Primer_ID` and
`direction`. -/
structure PrimerRecord where
  Primer_ID : String
  direction : String
  deriving DecidableEq

/-- Python `s.split(sep)[0]` for a nonempty separator `sep`:  the part of
the character list before the first occurrence of `sep`, or the whole list
when `sep` does not occur. -/
def takeUntilSep (sep : List Char) : List Char → List Char
  | [] => []
  | x :: xs => if sep.isPrefixOf (x :: xs) then [] else x :: takeUntilSep sep xs

/-- The amplicon base name of a primer record (`artic_mqc.py` lines 104-109):
direction `+` strips from the first `_LEFT`, any other direction strips from
the first `_RIGHT`. -/
def baseName (p : PrimerRecord) : String :=
  if p.direction = "+" then
    String.mk (takeUntilSep (("_LEFT").toList) p.Primer_ID.toList)
  else
    String.mk (takeUntilSep (("_RIGHT").toList) p.Primer_ID.toList)

/-- Association-list lookup modelling Python dict access: the first binding
for the key wins. -/
def alookup {α β : Type} [DecidableEq α] (k : α) : List (α × β) → Option β
  | [] => none
  | kv :: rest => if kv.1 = k then some kv.2 else alookup k rest

/-- The Python dict counting idiom of lines 110-112: insert a zero when the
key is absent, then add one. -/
def bumpKey (k : String) : List (String × Nat) → List (String × Nat)
  | [] => [(k, 1)]
  | kv :: rest => if kv.1 = k then (kv.1, kv.2 + 1) :: rest else kv :: bumpKey k rest

/-- The first loop of `getSchemeAmplicons` (lines 104-112): count the primers
per base name, keys kept in insertion order. -/
def countBases (acc : List (String × Nat)) : List PrimerRecord → List (String × Nat)
  | [] => acc
  | p :: ps => countBases (bumpKey (baseName p) acc) ps

/-- The amplicon key format of line 118. -/
def ampliconKey (b : String) : String :=
  b ++ "_LEFT_" ++ b ++ "_RIGHT"

/-- The second loop of `getSchemeAmplicons` (lines 113-118): every base must
have exactly 2 primers, any other count raises `SystemExit` (modelled as
`Except.error` carrying the offending base, so no fragment of the mapping escapes);
on success every base yields its amplicon key mapped to 0. -/
def nameAmplicons : List (String × Nat) → Except String (List (String × Int))
  | [] => .ok []
  | bc :: rest =>
    if bc.2 ≠ 2 then .error bc.1
    else
      match nameAmplicons rest with
      | .ok named => .ok ((ampliconKey bc.1, 0) :: named)
      | .error e => .error e

/-- The function `getSchemeAmplicons` (lines 89-119). -/
def getSchemeAmplicons (primer_scheme : List PrimerRecord) :
    Except String (List (String × Int)) :=
  nameAmplicons (countBases [] primer_scheme)

/-- One data row of the align_trim report.  The named fields record exactly
the columns the code reads, already through `int()` where the code applies
it: `rStart` = fields[1], `rEnd` = fields[2], `name` = fields[3],
`aStart` = fields[10], `aEnd` = fields[11], `flag` = fields[12]. -/
structure AlignmentRecord where
  rStart : Int
  rEnd : Int
  name : String
  aStart : Int
  aEnd : Int
  flag : Int
  deriving DecidableEq

/-- The constant `Alignment_Length_Threshold = 0.95` (line 11), as an exact rational.
It is written through `mkRat` because the scientific-notation literal for
`ℚ` is irreducible and would block kernel evaluation; the theorem
`Alignment_Length_Threshold_eq_literal` below checks it is the literal
`0.95`. -/
def Alignment_Length_Threshold : ℚ := mkRat 95 100

/-- The length filter of lines 151-155: the row is skipped when
`aLen < Alignment_Length_Threshold * rLen`. -/
def alignSkip (r : AlignmentRecord) : Bool :=
  decide (((r.aEnd - r.aStart : Int) : ℚ) <
    Alignment_Length_Threshold * ((r.rEnd - r.rStart : Int) : ℚ))

/-- The Python dict increment of line 161 for a key known to be present. -/
def incrKey (k : String) : List (String × Int) → List (String × Int)
  | [] => []
  | kv :: rest => if kv.1 = k then (kv.1, kv.2 + 1) :: rest else kv :: incrKey k rest

/-- The body of the `getAmpliconCounts` loop (lines 144-161) for one data
row: skip on pairing flag not equal to 1, skip on the length filter, abort
when the amplicon name is not a key (lines 158-160), otherwise increment. -/
def processRow (amplicons : List (String × Int)) (r : AlignmentRecord) :
    Except String (List (String × Int)) :=
  if r.flag ≠ 1 then .ok amplicons
  else if alignSkip r then .ok amplicons
  else if alookup r.name amplicons = none then .error r.name
  else .ok (incrKey r.name amplicons)

/-- The function `getAmpliconCounts` (lines 121-162): the header line is consumed by the
`readline` before the loop, so the input here is the list of data rows in
file order. -/
def getAmpliconCounts (amplicons : List (String × Int)) :
    List AlignmentRecord → Except String (List (String × Int))
  | [] => .ok amplicons
  | r :: rows =>
    match processRow amplicons r with
    | .ok updated => getAmpliconCounts updated rows
    | .error e => .error e

/-- Python `s.split(c)` for a single-character separator `c`. -/
def splitChar (c : Char) : List Char → List (List Char)
  | [] => [[]]
  | x :: xs =>
    if x = c then [] :: splitChar c xs
    else
      match splitChar c xs with
      | [] => [[x]]
      | t :: ts => (x :: t) :: ts

/-- Digit-string accumulator for `pyInt`. -/
def parseDigitsAux (acc : Nat) : List Char → Option Nat
  | [] => some acc
  | c :: cs => if c.isDigit then parseDigitsAux (acc * 10 + (c.toNat - 48)) cs else none

/-- Python `int(s)` restricted to the token shapes reachable here: an
optional sign followed by one or more decimal digits; `none` models the
`ValueError` that `int()` raises otherwise.  The tokens fed to it come from
splitting on the underscore, so the underscore digit grouping that `int()`
would additionally accept cannot occur in them. -/
def pyInt : List Char → Option Int
  | [] => none
  | '+' :: rest => if rest = [] then none else (parseDigitsAux 0 rest).map Int.ofNat
  | '-' :: rest => if rest = [] then none else (parseDigitsAux 0 rest).map (fun n => -(n : Int))
  | cs => (parseDigitsAux 0 cs).map Int.ofNat

/-- Python `int(amplicon.split(underscore character)[1])` of line 206: `none` models
the uncaught `ValueError` (token not an integer literal) or `IndexError`
(fewer than 2 tokens). -/
def parsedKey (a : String) : Option Int :=
  match splitChar '_' a.toList with
  | _ :: t :: _ => pyInt t
  | _ => none

/-- The three accumulators of the renumbering loop in `run`
(lines 200-208). -/
structure RunResult where
  renamed : List (Int × Int)
  readCount : Int
  dropouts : Int
  deriving DecidableEq

/-- Python dict assignment `d[k] = v`: update the binding in place when the
key is present, otherwise append it. -/
def setKey {α β : Type} [DecidableEq α] (k : α) (v : β) : List (α × β) → List (α × β)
  | [] => [(k, v)]
  | kv :: rest => if kv.1 = k then (k, v) :: rest else kv :: setKey k v rest

/-- The renumbering loop of `run` (lines 200-208) with its three
accumulators; an amplicon key whose second underscore token is not an
integer literal aborts the whole run with an uncaught exception, modelled as
`Except.error` carrying the offending key. -/
def classifyLoop (min_depth readCount dropouts : Int) (renamed : List (Int × Int)) :
    List (String × Int) → Except String RunResult
  | [] => .ok ⟨renamed, readCount, dropouts⟩
  | ac :: rest =>
    match parsedKey ac.1 with
    | some n =>
      classifyLoop min_depth (readCount + ac.2)
        (dropouts + if ac.2 < min_depth then 1 else 0) (setKey n ac.2 renamed) rest
    | none => .error ac.1

/-- The renumbering loop of `run` started on the zeroed accumulators. -/
def classify (min_depth : Int) (counts : List (String × Int)) : Except String RunResult :=
  classifyLoop min_depth 0 0 [] counts

/-- The function `getVCFreportInfo` (lines 178-189): the first data row of the report
arrives from `csv.DictReader` as header-value pairs; every pair except the
input VCF file entry is kept. -/
def getVCFreportInfo (firstline : List (String × String)) : List (String × String) :=
  firstline.filter (fun kv => kv.1 ≠ "input VCF file")

/-- A value of the stats table: the two read-count stats are ints, the VCF
report stats arrive as strings. -/
inductive StatValue
  | int (n : Int)
  | str (s : String)
  deriving DecidableEq

/-- The `statsData` construction of lines 219-224. -/
def buildStats (res : RunResult) (vcf_report : Option (List (String × String))) :
    List (String × StatValue) :=
  let s1 := setKey ("# mapped reads") (StatValue.int res.readCount) []
  let s2 := setKey ("# low cov. amplicons") (StatValue.int res.dropouts) s1
  match vcf_report with
  | none => s2
  | some firstline =>
    (getVCFreportInfo firstline).foldl (fun acc kv => setKey kv.1 (StatValue.str kv.2) acc) s2

/-- The function `run` (lines 191-230).  The two `json.dump` calls are file output; the
data payloads they serialize are the `RunResult` and the `statsData`
mapping returned here. -/
def run (scheme : List PrimerRecord) (align_report : List AlignmentRecord)
    (min_depth : Int) (vcf_report : Option (List (String × String))) :
    Except String (RunResult × List (String × StatValue)) :=
  match getSchemeAmplicons scheme with
  | .error e => .error e
  | .ok amplicons =>
    match getAmpliconCounts amplicons align_report with
    | .error e => .error e
    | .ok amplicon_counts =>
      match classify min_depth amplicon_counts with
      | .error e => .error e
      | .ok res => .ok (res, buildStats res vcf_report)

/-! ## Theorems -/

/-- The rational threshold written through `mkRat` is the source literal
`0.95`. -/
theorem Alignment_Length_Threshold_eq_literal : Alignment_Length_Threshold = 0.95 := by
  norm_num [Alignment_Length_Threshold]

/-- The length filter as a pure integer test: `aLen < 0.95 * rLen` over `ℚ`
holds exactly when `20 * aLen < 19 * rLen` over `Int`.  This is the form
every concrete evaluation below uses, since rational multiplication is
kernel-irreducible. -/
theorem alignSkip_eq_intTest (r : AlignmentRecord) :
    alignSkip r = decide ((r.aEnd - r.aStart) * 20 < 19 * (r.rEnd - r.rStart)) := by
  unfold alignSkip Alignment_Length_Threshold
  rw [decide_eq_decide]
  have h : (mkRat 95 100 : ℚ) = 19 / 20 := by norm_num
  rw [h, div_mul_eq_mul_div, lt_div_iff₀ (by norm_num : (0:ℚ) < 20)]
  constructor
  · intro hlt
    exact_mod_cast hlt
  · intro hlt
    exact_mod_cast hlt

example : alignSkip ⟨0, 100, "a", 0, 95, 1⟩ = false := by
  rw [alignSkip_eq_intTest]; decide

example : alignSkip ⟨0, 100, "a", 0, 94, 1⟩ = true := by
  rw [alignSkip_eq_intTest]; decide

example :
    getSchemeAmplicons [⟨"s_1_LEFT", "+"⟩, ⟨"s_1_RIGHT", "-"⟩] =
      .ok [("s_1_LEFT_s_1_RIGHT", 0)] := rfl

example : parsedKey ("s_1_LEFT_s_1_RIGHT") = some 1 := rfl

example : parsedKey ("1_LEFT_1_RIGHT") = none := rfl

/-! ### Association-list helper lemmas -/

theorem alookup_eq_none_iff {α β : Type} [DecidableEq α] (k : α) (l : List (α × β)) :
    alookup k l = none ↔ k ∉ l.map Prod.fst := by
  induction l with
  | nil => simp [alookup]
  | cons kv rest ih =>
    obtain ⟨a, b⟩ := kv
    by_cases h : a = k
    · subst h
      simp [alookup]
    · simp [alookup, h, Ne.symm h, ih]

theorem mem_of_alookup_eq_some {α β : Type} [DecidableEq α] {k : α} {v : β}
    {l : List (α × β)} (h : alookup k l = some v) : (k, v) ∈ l := by
  induction l with
  | nil => simp [alookup] at h
  | cons kv rest ih =>
    obtain ⟨a, b⟩ := kv
    by_cases hk : a = k
    · subst hk
      simp only [alookup, if_true, eq_self_iff_true, Option.some.injEq] at h
      subst h
      exact List.mem_cons_self _ _
    · simp only [alookup, if_neg hk] at h
      exact List.mem_cons_of_mem _ (ih h)

theorem alookup_eq_some_of_mem_nodup {α β : Type} [DecidableEq α] {k : α} {v : β}
    {l : List (α × β)} (hn : (l.map Prod.fst).Nodup) (hm : (k, v) ∈ l) :
    alookup k l = some v := by
  induction l with
  | nil => simp at hm
  | cons kv rest ih =>
    obtain ⟨a, b⟩ := kv
    simp only [List.map_cons, List.nodup_cons] at hn
    rcases List.mem_cons.mp hm with h | h
    · rw [show a = k from (congrArg Prod.fst h).symm,
        show b = v from (congrArg Prod.snd h).symm]
      simp [alookup]
    · have hk : a ≠ k := by
        intro he
        subst he
        exact hn.1 (List.mem_map.mpr ⟨(a, v), h, rfl⟩)
      simp only [alookup, if_neg hk]
      exact ih hn.2 h

theorem mem_keys_setKey {α β : Type} [DecidableEq α] (a k : α) (v : β)
    (l : List (α × β)) :
    a ∈ (setKey k v l).map Prod.fst ↔ a = k ∨ a ∈ l.map Prod.fst := by
  induction l with
  | nil => simp [setKey, eq_comm]
  | cons kv rest ih =>
    obtain ⟨x, y⟩ := kv
    by_cases h : x = k
    · subst h
      simp [setKey]
    · simp only [setKey, if_neg h, List.map_cons, List.mem_cons, ih]
      tauto

theorem setKey_eq_append {α β : Type} [DecidableEq α] {k : α} (v : β)
    {l : List (α × β)} (h : k ∉ l.map Prod.fst) :
    setKey k v l = l ++ [(k, v)] := by
  induction l with
  | nil => simp [setKey]
  | cons kv rest ih =>
    obtain ⟨x, y⟩ := kv
    simp only [List.map_cons, List.mem_cons] at h
    push_neg at h
    simp only [setKey, if_neg (fun he : x = k => h.1 he.symm), List.cons_append,
      List.cons.injEq, true_and]
    exact ih h.2

theorem map_fst_incrKey (k : String) (l : List (String × Int)) :
    (incrKey k l).map Prod.fst = l.map Prod.fst := by
  induction l with
  | nil => simp [incrKey]
  | cons kv rest ih =>
    obtain ⟨a, b⟩ := kv
    by_cases h : a = k
    · simp [incrKey, h]
    · simp [incrKey, h, ih]

theorem alookup_incrKey_self {k : String} {v : Int} {l : List (String × Int)}
    (h : alookup k l = some v) : alookup k (incrKey k l) = some (v + 1) := by
  induction l with
  | nil => simp [alookup] at h
  | cons kv rest ih =>
    obtain ⟨a, b⟩ := kv
    by_cases hk : a = k
    · subst hk
      simp only [alookup, if_true, eq_self_iff_true, Option.some.injEq] at h
      simp [incrKey, alookup, h]
    · simp only [alookup, if_neg hk] at h
      simp only [incrKey, if_neg hk, alookup, if_neg hk]
      exact ih h

theorem alookup_incrKey_ne (k k' : String) (l : List (String × Int)) (h : k' ≠ k) :
    alookup k' (incrKey k l) = alookup k' l := by
  induction l with
  | nil => simp [incrKey]
  | cons kv rest ih =>
    obtain ⟨a, b⟩ := kv
    by_cases hk : a = k
    · subst hk
      have hne : a ≠ k' := fun he => h he.symm
      simp [incrKey, alookup, hne]
    · by_cases hk' : a = k'
      · subst hk'
        simp [incrKey, hk, alookup]
      · simp [incrKey, hk, alookup, hk', ih]

/-! ### Read Aggregator lemmas -/

theorem processRow_ok_keys {l m : List (String × Int)} {r : AlignmentRecord}
    (h : processRow l r = .ok m) : m.map Prod.fst = l.map Prod.fst := by
  unfold processRow at h
  split at h
  · cases h
    rfl
  · split at h
    · cases h
      rfl
    · split at h
      · cases h
      · cases h
        exact map_fst_incrKey _ _

theorem getAmpliconCounts_ok_keys {amps res : List (String × Int)}
    {rows : List AlignmentRecord} (h : getAmpliconCounts amps rows = .ok res) :
    res.map Prod.fst = amps.map Prod.fst := by
  induction rows generalizing amps with
  | nil =>
    cases h
    rfl
  | cons r rows ih =>
    unfold getAmpliconCounts at h
    split at h
    · next updated hp => exact (ih h).trans (processRow_ok_keys hp)
    · next e hp => cases h

/-- Claim C1: a data row of the align_trim report is counted toward its
assigned amplicon (its counter incremented by exactly 1, all other counters
unchanged) if and only if its pairing flag equals 1 and the aligned length
`aEnd - aStart` is at least `Alignment_Length_Threshold` times the amplicon
length `rEnd - rStart`; any row failing either filter leaves the counts
unchanged. -/
theorem claim_C1 (amps : List (String × Int)) (r : AlignmentRecord) (v : Int)
    (h : alookup r.name amps = some v) :
    processRow amps r =
      .ok (if r.flag = 1 ∧
              Alignment_Length_Threshold * ((r.rEnd - r.rStart : Int) : ℚ) ≤
                ((r.aEnd - r.aStart : Int) : ℚ)
           then incrKey r.name amps else amps) ∧
    alookup r.name (incrKey r.name amps) = some (v + 1) ∧
    (∀ k, k ≠ r.name → alookup k (incrKey r.name amps) = alookup k amps) := by
  refine ⟨?_, alookup_incrKey_self h, fun k hk => alookup_incrKey_ne _ _ _ hk⟩
  unfold processRow
  by_cases hc : (r.flag = 1 ∧
      Alignment_Length_Threshold * ((r.rEnd - r.rStart : Int) : ℚ) ≤
        ((r.aEnd - r.aStart : Int) : ℚ))
  · rw [if_pos hc]
    have h2 : alignSkip r = false := by
      unfold alignSkip
      exact decide_eq_false (not_lt.mpr hc.2)
    rw [if_neg (fun hne => hne hc.1), h2, if_neg Bool.false_ne_true, h,
      if_neg (by simp)]
  · rw [if_neg hc]
    by_cases h1 : r.flag = 1
    · have hlt : ((r.aEnd - r.aStart : Int) : ℚ) <
          Alignment_Length_Threshold * ((r.rEnd - r.rStart : Int) : ℚ) :=
        not_le.mp (fun hle => hc ⟨h1, hle⟩)
      have h2 : alignSkip r = true := by
        unfold alignSkip
        exact decide_eq_true hlt
      rw [if_neg (fun hne => hne h1), h2, if_pos rfl]
    · rw [if_pos h1]

theorem claim_C1_witness :
    processRow [(("A_1_LEFT_A_1_RIGHT" : String), (0 : Int))]
        ⟨0, 100, ("A_1_LEFT_A_1_RIGHT"), 0, 100, 1⟩ =
      .ok [(("A_1_LEFT_A_1_RIGHT" : String), (1 : Int))] := by
  have hw := claim_C1 [(("A_1_LEFT_A_1_RIGHT" : String), (0 : Int))]
    ⟨0, 100, ("A_1_LEFT_A_1_RIGHT"), 0, 100, 1⟩ 0 rfl
  rw [hw.1, if_pos]
  · rfl
  · refine ⟨rfl, ?_⟩
    have h2 : alignSkip ⟨0, 100, ("A_1_LEFT_A_1_RIGHT"), 0, 100, 1⟩ = false := by
      rw [alignSkip_eq_intTest]
      decide
    have h2' : ¬ (((100 : Int) - 0 : Int) : ℚ) <
        Alignment_Length_Threshold * (((100 : Int) - 0 : Int) : ℚ) := by
      simpa [alignSkip] using h2
    exact not_lt.mp h2'

/-- Claim C8: the Read Aggregator never changes the key set of the counts
mapping (over any list of report rows ending in success the keys are those
it started from); a successful single-row step leaves the keys identical and
every counter except possibly the one of the row unchanged; and a row
passing both filters whose amplicon name is not a key aborts with that name
as the error instead of inserting a key. -/
theorem claim_C8 (amps res : List (String × Int)) (rows : List AlignmentRecord)
    (h : getAmpliconCounts amps rows = .ok res) :
    res.map Prod.fst = amps.map Prod.fst ∧
    (∀ r m, processRow amps r = .ok m →
        m.map Prod.fst = amps.map Prod.fst ∧
        ∀ k, k ≠ r.name → alookup k m = alookup k amps) ∧
    (∀ r : AlignmentRecord, r.flag = 1 → alignSkip r = false →
        alookup r.name amps = none → processRow amps r = .error r.name) := by
  refine ⟨getAmpliconCounts_ok_keys h, ?_, ?_⟩
  · intro r m hm
    refine ⟨processRow_ok_keys hm, ?_⟩
    intro k hk
    unfold processRow at hm
    split at hm
    · cases hm
      rfl
    · split at hm
      · cases hm
        rfl
      · split at hm
        · cases hm
        · cases hm
          exact alookup_incrKey_ne _ _ _ hk
  · intro r h1 h2 h3
    unfold processRow
    rw [if_neg (fun hne => hne h1), h2]
    rw [if_neg (by simp), if_pos h3]

theorem claim_C8_witness :
    processRow [(("k1" : String), (0 : Int))] ⟨0, 100, ("k2"), 0, 100, 1⟩ =
      .error ("k2") := by
  have hskip : alignSkip ⟨0, 100, ("k2"), 0, 100, 1⟩ = false := by
    rw [alignSkip_eq_intTest]
    decide
  exact (claim_C8 [(("k1" : String), (0 : Int))] [(("k1" : String), (0 : Int))] [] rfl).2.2
    ⟨0, 100, ("k2"), 0, 100, 1⟩ rfl hskip rfl

/-! ### Primer-Pair Resolver lemmas -/

theorem map_fst_bumpKey (k : String) (l : List (String × Nat)) :
    (bumpKey k l).map Prod.fst =
      if k ∈ l.map Prod.fst then l.map Prod.fst else l.map Prod.fst ++ [k] := by
  induction l with
  | nil => simp [bumpKey]
  | cons kv rest ih =>
    obtain ⟨a, b⟩ := kv
    by_cases h : a = k
    · subst h
      simp [bumpKey]
    · simp only [bumpKey, if_neg h, List.map_cons, ih]
      by_cases hm : k ∈ rest.map Prod.fst
      · simp [hm, Ne.symm h]
      · simp [hm, Ne.symm h]

theorem alookup_bumpKey_self (k : String) (l : List (String × Nat)) :
    alookup k (bumpKey k l) = some ((alookup k l).getD 0 + 1) := by
  induction l with
  | nil => simp [bumpKey, alookup]
  | cons kv rest ih =>
    obtain ⟨a, b⟩ := kv
    by_cases h : a = k
    · subst h
      simp [bumpKey, alookup]
    · simp [bumpKey, alookup, h, ih]

theorem alookup_bumpKey_ne (k k' : String) (l : List (String × Nat)) (h : k' ≠ k) :
    alookup k' (bumpKey k l) = alookup k' l := by
  induction l with
  | nil =>
    have hne : k ≠ k' := fun he => h he.symm
    simp [bumpKey, alookup, hne]
  | cons kv rest ih =>
    obtain ⟨a, b⟩ := kv
    by_cases hk : a = k
    · subst hk
      have hne : a ≠ k' := fun he => h he.symm
      simp [bumpKey, alookup, hne]
    · by_cases hk' : a = k'
      · subst hk'
        simp [bumpKey, hk, alookup]
      · simp [bumpKey, hk, alookup, hk', ih]

theorem alookup_countBases_some (ps : List PrimerRecord) :
    ∀ (acc : List (String × Nat)) (b : String) (v : Nat), alookup b acc = some v →
      alookup b (countBases acc ps) = some (v + (ps.map baseName).count b) := by
  induction ps with
  | nil =>
    intro acc b v h
    simpa [countBases] using h
  | cons p ps ih =>
    intro acc b v h
    by_cases hb : baseName p = b
    · have h2 : alookup b (bumpKey (baseName p) acc) = some (v + 1) := by
        rw [hb, alookup_bumpKey_self, h]
        simp
      rw [countBases, ih _ b (v + 1) h2]
      congr 1
      simp [List.count_cons, hb]
      omega
    · have h2 : alookup b (bumpKey (baseName p) acc) = some v := by
        rw [alookup_bumpKey_ne _ _ _ (fun he => hb he.symm)]
        exact h
      rw [countBases, ih _ b v h2]
      congr 1
      simp [List.count_cons, Ne.symm hb]

theorem alookup_countBases_none (ps : List PrimerRecord) :
    ∀ (acc : List (String × Nat)) (b : String), alookup b acc = none →
      alookup b (countBases acc ps) =
        if b ∈ ps.map baseName then some ((ps.map baseName).count b) else none := by
  induction ps with
  | nil =>
    intro acc b h
    simpa [countBases] using h
  | cons p ps ih =>
    intro acc b h
    by_cases hb : baseName p = b
    · subst hb
      have h2 : alookup (baseName p) (bumpKey (baseName p) acc) = some 1 := by
        rw [alookup_bumpKey_self, h]
        rfl
      rw [countBases, alookup_countBases_some ps _ _ _ h2]
      simp [List.count_cons, Nat.add_comm]
    · have h2 : alookup b (bumpKey (baseName p) acc) = none := by
        rw [alookup_bumpKey_ne _ _ _ (fun he => hb he.symm)]
        exact h
      rw [countBases, ih _ b h2]
      by_cases hm : b ∈ ps.map baseName
      · simp [hm, List.count_cons, Ne.symm hb, hb]
      · simp [hm, hb, Ne.symm hb]

theorem mem_keys_countBases (ps : List PrimerRecord) (acc : List (String × Nat))
    (b : String) :
    b ∈ (countBases acc ps).map Prod.fst ↔
      b ∈ acc.map Prod.fst ∨ b ∈ ps.map baseName := by
  by_cases hmem : b ∈ acc.map Prod.fst
  · have hne : alookup b acc ≠ none := fun hn => (alookup_eq_none_iff b acc).mp hn hmem
    obtain ⟨v, hv⟩ := Option.ne_none_iff_exists'.mp hne
    have h2 := alookup_countBases_some ps acc b v hv
    have h3 : alookup b (countBases acc ps) ≠ none := by
      rw [h2]
      simp
    simp only [ne_eq, alookup_eq_none_iff, not_not] at h3
    exact ⟨fun _ => Or.inl hmem, fun _ => h3⟩
  · have hnone : alookup b acc = none := (alookup_eq_none_iff b acc).mpr hmem
    have h2 := alookup_countBases_none ps acc b hnone
    by_cases hb : b ∈ ps.map baseName
    · rw [if_pos hb] at h2
      have h3 : alookup b (countBases acc ps) ≠ none := by
        rw [h2]
        simp
      simp only [ne_eq, alookup_eq_none_iff, not_not] at h3
      exact ⟨fun _ => Or.inr hb, fun _ => h3⟩
    · rw [if_neg hb] at h2
      have h3 : b ∉ (countBases acc ps).map Prod.fst := (alookup_eq_none_iff _ _).mp h2
      simp [h3, hmem, hb]

theorem nodup_keys_countBases (ps : List PrimerRecord) :
    ∀ acc : List (String × Nat), (acc.map Prod.fst).Nodup →
      ((countBases acc ps).map Prod.fst).Nodup := by
  induction ps with
  | nil =>
    intro acc h
    simpa [countBases] using h
  | cons p ps ih =>
    intro acc h
    rw [countBases]
    apply ih
    by_cases hm : baseName p ∈ acc.map Prod.fst
    · rw [map_fst_bumpKey, if_pos hm]
      exact h
    · rw [map_fst_bumpKey, if_neg hm]
      simp [List.nodup_append, h, hm]

theorem nameAmplicons_ok_of_all {l : List (String × Nat)} (h : ∀ bc ∈ l, bc.2 = 2) :
    nameAmplicons l = .ok (l.map fun bc => (ampliconKey bc.1, 0)) := by
  induction l with
  | nil => rfl
  | cons bc rest ih =>
    obtain ⟨b, c⟩ := bc
    have hc : c = 2 := h (b, c) (List.mem_cons_self _ _)
    simp only [nameAmplicons]
    rw [if_neg (by simp [hc]), ih (fun x hx => h x (List.mem_cons_of_mem _ hx))]
    rfl

theorem nameAmplicons_ok_shape {l : List (String × Nat)} {m : List (String × Int)}
    (h : nameAmplicons l = .ok m) :
    (∀ bc ∈ l, bc.2 = 2) ∧ m = l.map fun bc => (ampliconKey bc.1, 0) := by
  induction l generalizing m with
  | nil =>
    cases h
    exact ⟨by simp, rfl⟩
  | cons bc rest ih =>
    obtain ⟨b, c⟩ := bc
    simp only [nameAmplicons] at h
    split at h
    · cases h
    · next hc2 =>
      split at h
      · next named hok =>
        cases h
        obtain ⟨h1, h2⟩ := ih hok
        refine ⟨?_, by rw [h2]; rfl⟩
        intro x hx
        rcases List.mem_cons.mp hx with hx | hx
        · rw [hx]
          exact not_not.mp hc2
        · exact h1 x hx
      · cases h

theorem nameAmplicons_error_of_bad {l : List (String × Nat)}
    (h : ∃ bc ∈ l, bc.2 ≠ 2) :
    ∃ bc, bc ∈ l ∧ bc.2 ≠ 2 ∧ nameAmplicons l = .error bc.1 := by
  induction l with
  | nil => simp at h
  | cons bc rest ih =>
    obtain ⟨b, c⟩ := bc
    by_cases hc : c ≠ 2
    · exact ⟨(b, c), List.mem_cons_self _ _, hc, by simp only [nameAmplicons]; rw [if_pos hc]⟩
    · have hrest : ∃ x ∈ rest, x.2 ≠ 2 := by
        obtain ⟨x, hx, hx2⟩ := h
        rcases List.mem_cons.mp hx with he | hm
        · exact absurd (by rw [he]; exact not_not.mp hc) hx2
        · exact ⟨x, hm, hx2⟩
      obtain ⟨x, hm, hx2, herr⟩ := ih hrest
      refine ⟨x, List.mem_cons_of_mem _ hm, hx2, ?_⟩
      simp only [nameAmplicons]
      rw [if_neg hc, herr]

theorem getSchemeAmplicons_ok_of_all (ps : List PrimerRecord)
    (h : ∀ b ∈ ps.map baseName, (ps.map baseName).count b = 2) :
    getSchemeAmplicons ps =
      .ok ((countBases [] ps).map fun bc => (ampliconKey bc.1, 0)) := by
  unfold getSchemeAmplicons
  apply nameAmplicons_ok_of_all
  intro bc hbc
  obtain ⟨b, c⟩ := bc
  have hkey : b ∈ (countBases [] ps).map Prod.fst := List.mem_map.mpr ⟨(b, c), hbc, rfl⟩
  have hbase : b ∈ ps.map baseName := by
    have := (mem_keys_countBases ps [] b).mp hkey
    simpa using this
  have hl1 : alookup b (countBases [] ps) = some c :=
    alookup_eq_some_of_mem_nodup (nodup_keys_countBases ps [] (by simp)) hbc
  have hl2 : alookup b (countBases [] ps) = some ((ps.map baseName).count b) := by
    rw [alookup_countBases_none ps [] b rfl, if_pos hbase]
  rw [hl1] at hl2
  exact (Option.some.inj hl2).trans (h b hbase)

theorem getSchemeAmplicons_error_of_bad (ps : List PrimerRecord)
    (h : ∃ b ∈ ps.map baseName, (ps.map baseName).count b ≠ 2) :
    ∃ b, b ∈ ps.map baseName ∧ (ps.map baseName).count b ≠ 2 ∧
      getSchemeAmplicons ps = .error b := by
  obtain ⟨b, hb, hcnt⟩ := h
  have hl : alookup b (countBases [] ps) = some ((ps.map baseName).count b) := by
    rw [alookup_countBases_none ps [] b rfl, if_pos hb]
  have hmem := mem_of_alookup_eq_some hl
  obtain ⟨x, hxmem, hx2, herr⟩ :=
    nameAmplicons_error_of_bad ⟨(b, (ps.map baseName).count b), hmem, hcnt⟩
  have hxkey : x.1 ∈ (countBases [] ps).map Prod.fst := List.mem_map.mpr ⟨x, hxmem, rfl⟩
  have hxbase : x.1 ∈ ps.map baseName := by
    have := (mem_keys_countBases ps [] x.1).mp hxkey
    simpa using this
  have hxl1 : alookup x.1 (countBases [] ps) = some x.2 :=
    alookup_eq_some_of_mem_nodup (nodup_keys_countBases ps [] (by simp))
      (by rw [Prod.mk.eta]; exact hxmem)
  have hxl2 : alookup x.1 (countBases [] ps) = some ((ps.map baseName).count x.1) := by
    rw [alookup_countBases_none ps [] x.1 rfl, if_pos hxbase]
  rw [hxl1] at hxl2
  refine ⟨x.1, hxbase, ?_, herr⟩
  rw [← Option.some.inj hxl2]
  exact hx2

/-- Claim C5: the Primer-Pair Resolver succeeds exactly when every base name
(the primer ID with its direction suffix stripped) occurs exactly twice in
the primer sequence; on success it produces exactly one key
`base_LEFT_base_RIGHT` per distinct base, each mapped to 0; for a bad count
it produces an error naming an offending base and no fragment of a mapping. -/
theorem claim_C5 (ps : List PrimerRecord) :
    ((∀ b ∈ ps.map baseName, (ps.map baseName).count b = 2) →
      getSchemeAmplicons ps =
        .ok ((countBases [] ps).map fun bc => (ampliconKey bc.1, 0))) ∧
    ((∃ b ∈ ps.map baseName, (ps.map baseName).count b ≠ 2) →
      ∃ b, b ∈ ps.map baseName ∧ (ps.map baseName).count b ≠ 2 ∧
        getSchemeAmplicons ps = .error b) ∧
    ((countBases [] ps).map Prod.fst).Nodup ∧
    (∀ b, b ∈ (countBases [] ps).map Prod.fst ↔ b ∈ ps.map baseName) := by
  refine ⟨getSchemeAmplicons_ok_of_all ps, getSchemeAmplicons_error_of_bad ps,
    nodup_keys_countBases ps [] (by simp), ?_⟩
  intro b
  have := mem_keys_countBases ps [] b
  simpa using this

theorem claim_C5_witness :
    getSchemeAmplicons [⟨"s_1_LEFT", "+"⟩, ⟨"s_1_RIGHT", "-"⟩] =
      .ok [(("s_1_LEFT_s_1_RIGHT" : String), (0 : Int))] :=
  (claim_C5 [⟨"s_1_LEFT", "+"⟩, ⟨"s_1_RIGHT", "-"⟩]).1 (by decide)

/-- Claim C6 counterexample: two primers of the same direction sharing a base
are accepted by the resolver (their total count is 2), which emits the key
for that base instead of aborting, refuting the claim that any base without
exactly one LEFT and one RIGHT primer is a fatal error. -/
theorem claim_C6_counterexample :
    getSchemeAmplicons [⟨"X_LEFT_alt1", "+"⟩, ⟨"X_LEFT_alt2", "+"⟩] =
      .ok [(("X_LEFT_X_RIGHT" : String), (0 : Int))] := rfl

/-- Claim C6 (amended): the resolver aborts if and only if some base has a
total primer count different from 2, counting primers of both directions
together; the direction composition of the pair is never checked, so a base
with two same-direction primers is accepted. -/
theorem claim_C6_amended (ps : List PrimerRecord) :
    (∃ b, getSchemeAmplicons ps = .error b) ↔
      ∃ b ∈ ps.map baseName, (ps.map baseName).count b ≠ 2 := by
  constructor
  · rintro ⟨b, hb⟩
    by_contra hno
    push_neg at hno
    have hok := getSchemeAmplicons_ok_of_all ps (fun x hx => hno x hx)
    rw [hok] at hb
    cases hb
  · intro h
    obtain ⟨b, _, _, herr⟩ := getSchemeAmplicons_error_of_bad ps h
    exact ⟨b, herr⟩

theorem claim_C6_amended_witness :
    ∃ b, getSchemeAmplicons [⟨"Y_LEFT", "+"⟩] = .error b :=
  (claim_C6_amended [⟨"Y_LEFT", "+"⟩]).mpr (by decide)

/-! ### Coverage Classifier lemmas -/

theorem splitChar_of_not_mem {c : Char} {xs : List Char} (h : c ∉ xs) :
    splitChar c xs = [xs] := by
  induction xs with
  | nil => rfl
  | cons x xs ih =>
    simp only [List.mem_cons] at h
    push_neg at h
    rw [splitChar, if_neg (fun he : x = c => h.1 he.symm), ih h.2]

theorem splitChar_append (c : Char) (xs ys : List Char) (h : c ∉ xs) :
    splitChar c (xs ++ c :: ys) = xs :: splitChar c ys := by
  induction xs with
  | nil =>
    simp only [List.nil_append]
    rw [splitChar, if_pos rfl]
  | cons x xs ih =>
    simp only [List.mem_cons] at h
    push_neg at h
    simp only [List.cons_append]
    rw [splitChar, if_neg (fun he : x = c => h.1 he.symm), ih h.2]

theorem splitChar_ampliconKey {b : String} (h : ('_' : Char) ∉ b.toList) :
    splitChar '_' (ampliconKey b).toList =
      [b.toList, [('L' : Char), 'E', 'F', 'T'], b.toList,
        [('R' : Char), 'I', 'G', 'H', 'T']] := by
  have hl : (ampliconKey b).toList =
      b.toList ++ ('_' : Char) :: ([('L' : Char), 'E', 'F', 'T'] ++ ('_' : Char) ::
        (b.toList ++ ('_' : Char) :: [('R' : Char), 'I', 'G', 'H', 'T'])) := by
    simp only [ampliconKey, String.toList, String.data_append, List.append_assoc]
    rfl
  rw [hl, splitChar_append _ _ _ h, splitChar_append _ _ _ (by decide),
    splitChar_append _ _ _ h, splitChar_of_not_mem (by decide)]

theorem parsedKey_ampliconKey_eq_none {b : String} (h : ('_' : Char) ∉ b.toList) :
    parsedKey (ampliconKey b) = none := by
  unfold parsedKey
  rw [splitChar_ampliconKey h]
  rfl

theorem classifyLoop_ok_readCount :
    ∀ (counts : List (String × Int)) (md rc d : Int) (ren : List (Int × Int))
      (res : RunResult), classifyLoop md rc d ren counts = .ok res →
      res.readCount = rc + (counts.map Prod.snd).sum := by
  intro counts
  induction counts with
  | nil =>
    intro md rc d ren res h
    cases h
    simp
  | cons ac rest ih =>
    intro md rc d ren res h
    simp only [classifyLoop] at h
    split at h
    · next n hn =>
      rw [ih _ _ _ _ _ h]
      simp only [List.map_cons, List.sum_cons]
      ring
    · cases h

theorem classifyLoop_ok_dropouts :
    ∀ (counts : List (String × Int)) (md rc d : Int) (ren : List (Int × Int))
      (res : RunResult), classifyLoop md rc d ren counts = .ok res →
      res.dropouts = d + ((counts.countP fun p => decide (p.2 < md)) : Int) := by
  intro counts
  induction counts with
  | nil =>
    intro md rc d ren res h
    cases h
    simp
  | cons ac rest ih =>
    intro md rc d ren res h
    simp only [classifyLoop] at h
    split at h
    · next n hn =>
      rw [ih _ _ _ _ _ h, List.countP_cons]
      simp only [decide_eq_true_eq]
      by_cases hlt : ac.2 < md
      · rw [if_pos hlt, if_pos hlt]
        push_cast
        ring
      · rw [if_neg hlt, if_neg hlt]
        push_cast
        ring
    · cases h

theorem classifyLoop_error_of_bad :
    ∀ (counts : List (String × Int)) (md rc d : Int) (ren : List (Int × Int)),
      (∃ p ∈ counts, parsedKey p.1 = none) →
      ∃ e, classifyLoop md rc d ren counts = .error e := by
  intro counts
  induction counts with
  | nil =>
    intro md rc d ren h
    simp at h
  | cons ac rest ih =>
    intro md rc d ren h
    simp only [classifyLoop]
    cases hp : parsedKey ac.1 with
    | none => exact ⟨ac.1, rfl⟩
    | some n =>
      have hrest : ∃ p ∈ rest, parsedKey p.1 = none := by
        obtain ⟨p, hpmem, hpn⟩ := h
        rcases List.mem_cons.mp hpmem with he | hm
        · rw [he, hp] at hpn
          cases hpn
        · exact ⟨p, hm, hpn⟩
      exact ih md _ _ _ hrest

theorem classifyLoop_ok_renamed :
    ∀ (counts : List (String × Int)) (md rc d : Int) (ren : List (Int × Int)),
      (∀ p ∈ counts, (parsedKey p.1).isSome) →
      ((counts.map fun p => (parsedKey p.1).getD 0).Nodup) →
      (∀ p ∈ counts, (parsedKey p.1).getD 0 ∉ ren.map Prod.fst) →
      ∃ res, classifyLoop md rc d ren counts = .ok res ∧
        res.renamed = ren ++ counts.map (fun p => ((parsedKey p.1).getD 0, p.2)) := by
  intro counts
  induction counts with
  | nil =>
    intro md rc d ren h1 h2 h3
    exact ⟨⟨ren, rc, d⟩, rfl, by simp⟩
  | cons ac rest ih =>
    intro md rc d ren h1 h2 h3
    obtain ⟨n, hn⟩ := Option.isSome_iff_exists.mp (h1 ac (List.mem_cons_self _ _))
    have hset : setKey n ac.2 ren = ren ++ [(n, ac.2)] := by
      apply setKey_eq_append
      have h4 := h3 ac (List.mem_cons_self _ _)
      rw [hn] at h4
      simpa using h4
    have h1' : ∀ p ∈ rest, (parsedKey p.1).isSome :=
      fun p hp => h1 p (List.mem_cons_of_mem _ hp)
    rw [List.map_cons] at h2
    obtain ⟨hnd, h2'⟩ := List.nodup_cons.mp h2
    have h3' : ∀ p ∈ rest,
        (parsedKey p.1).getD 0 ∉ (setKey n ac.2 ren).map Prod.fst := by
      intro p hp
      rw [hset]
      simp only [List.map_append, List.mem_append]
      rintro (hin | hin)
      · exact h3 p (List.mem_cons_of_mem _ hp) hin
      · simp only [List.map_cons, List.map_nil, List.mem_singleton] at hin
        have hne : (parsedKey ac.1).getD 0 ≠ (parsedKey p.1).getD 0 := by
          intro he
          exact hnd (he ▸ List.mem_map.mpr ⟨p, hp, rfl⟩)
        apply hne
        rw [hn]
        simpa using hin.symm
    obtain ⟨res, hres, hren⟩ := ih md (rc + ac.2) (d + if ac.2 < md then 1 else 0)
      (setKey n ac.2 ren) h1' h2' h3'
    refine ⟨res, ?_, ?_⟩
    · simp only [classifyLoop, hn]
      exact hres
    · rw [hren, hset]
      simp [hn]

/-! ### run decomposition -/

theorem run_eq_of (ps : List PrimerRecord) (rows : List AlignmentRecord) (md : Int)
    (vcf : Option (List (String × String))) {amps counts : List (String × Int)}
    {res : RunResult}
    (h1 : getSchemeAmplicons ps = .ok amps)
    (h2 : getAmpliconCounts amps rows = .ok counts)
    (h3 : classify md counts = .ok res) :
    run ps rows md vcf = .ok (res, buildStats res vcf) := by
  simp only [run, h1, h2, h3]

theorem run_error_of_classify (ps : List PrimerRecord) (rows : List AlignmentRecord)
    (md : Int) (vcf : Option (List (String × String)))
    {amps counts : List (String × Int)} {e : String}
    (h1 : getSchemeAmplicons ps = .ok amps)
    (h2 : getAmpliconCounts amps rows = .ok counts)
    (h3 : classify md counts = .error e) :
    run ps rows md vcf = .error e := by
  simp only [run, h1, h2, h3]

theorem processRow_eval_counted (amps : List (String × Int)) (r : AlignmentRecord)
    (h1 : r.flag = 1) (h2 : alignSkip r = false)
    (h3 : alookup r.name amps = none → False) :
    processRow amps r = .ok (incrKey r.name amps) := by
  unfold processRow
  rw [if_neg (fun hne => hne h1), h2, if_neg Bool.false_ne_true, if_neg h3]

theorem getAmpliconCounts_cons_counted (amps : List (String × Int))
    (r : AlignmentRecord) (rows : List AlignmentRecord)
    (h1 : r.flag = 1) (h2 : alignSkip r = false)
    (h3 : alookup r.name amps = none → False) :
    getAmpliconCounts amps (r :: rows) =
      getAmpliconCounts (incrKey r.name amps) rows := by
  simp only [getAmpliconCounts, processRow_eval_counted amps r h1 h2 h3]

theorem getAmpliconCounts_cons_flag (amps : List (String × Int))
    (r : AlignmentRecord) (rows : List AlignmentRecord) (h1 : r.flag ≠ 1) :
    getAmpliconCounts amps (r :: rows) = getAmpliconCounts amps rows := by
  have hp : processRow amps r = .ok amps := by
    unfold processRow
    rw [if_pos h1]
  simp only [getAmpliconCounts, hp]

theorem getAmpliconCounts_cons_len (amps : List (String × Int))
    (r : AlignmentRecord) (rows : List AlignmentRecord)
    (h1 : r.flag = 1) (h2 : alignSkip r = true) :
    getAmpliconCounts amps (r :: rows) = getAmpliconCounts amps rows := by
  have hp : processRow amps r = .ok amps := by
    unfold processRow
    rw [if_neg (fun hne => hne h1), h2, if_pos rfl]
  simp only [getAmpliconCounts, hp]

/-- Claim C3: whenever the run completes, the value emitted in the stats
mapping under the label of mapped reads is exactly the sum of all final
per-amplicon counts produced by the Read Aggregator. -/
theorem claim_C3 (ps : List PrimerRecord) (rows : List AlignmentRecord) (md : Int)
    (res : RunResult) (stats : List (String × StatValue))
    (h : run ps rows md none = .ok (res, stats)) :
    ∃ amps counts, getSchemeAmplicons ps = .ok amps ∧
      getAmpliconCounts amps rows = .ok counts ∧
      alookup ("# mapped reads") stats =
        some (.int ((counts.map Prod.snd).sum)) := by
  unfold run at h
  split at h
  · cases h
  · next amps hamps =>
    split at h
    · cases h
    · next counts hcounts =>
      split at h
      · cases h
      · next res' hres' =>
        have hr : res' = res := congrArg Prod.fst (Except.ok.inj h)
        have hs : buildStats res' none = stats := congrArg Prod.snd (Except.ok.inj h)
        subst hr
        subst hs
        refine ⟨amps, counts, hamps, hcounts, ?_⟩
        have hsum := classifyLoop_ok_readCount counts md 0 0 [] res' hres'
        have hl : alookup ("# mapped reads") (buildStats res' none) =
            some (.int res'.readCount) := rfl
        rw [hl, hsum]
        simp

theorem claim_C3_witness :
    ∃ amps counts,
      getSchemeAmplicons [⟨"s_1_LEFT", "+"⟩, ⟨"s_1_RIGHT", "-"⟩] = .ok amps ∧
      getAmpliconCounts amps [] = .ok counts ∧
      alookup ("# mapped reads")
          [(("# mapped reads" : String), StatValue.int 0),
           (("# low cov. amplicons" : String), StatValue.int 0)] =
        some (.int ((counts.map Prod.snd).sum)) :=
  claim_C3 [⟨"s_1_LEFT", "+"⟩, ⟨"s_1_RIGHT", "-"⟩] [] 0 ⟨[(1, 0)], 0, 0⟩ _ rfl

/-- Claim C4: the dropout count of the Coverage Classifier equals the number
of amplicons whose final count is strictly below the minimum depth; an
amplicon whose count equals the minimum depth is not a dropout. -/
theorem claim_C4 (md : Int) (counts : List (String × Int)) (res : RunResult)
    (h : classify md counts = .ok res) :
    res.dropouts = ((counts.countP fun p => decide (p.2 < md)) : Int) := by
  have h2 := classifyLoop_ok_dropouts counts md 0 0 [] res h
  simpa using h2

theorem claim_C4_witness :
    (⟨[((1 : Int), (2 : Int)), (2, 1)], 3, 1⟩ : RunResult).dropouts =
      (([(("a_1_LEFT_a_1_RIGHT" : String), (2 : Int)),
         (("b_2_LEFT_b_2_RIGHT" : String), (1 : Int))].countP
        fun p => decide (p.2 < 2)) : Int) :=
  claim_C4 2 _ _ rfl

/-- Claim C7 counterexample: a valid scheme with bases `a_1` and `b_1` gives
two amplicon counters, but both renumber to ordinal 1, so the renumbered
mapping has cardinality 1 and the claimed bijection fails. -/
theorem claim_C7_counterexample :
    getSchemeAmplicons
        [⟨"a_1_LEFT", "+"⟩, ⟨"a_1_RIGHT", "-"⟩, ⟨"b_1_LEFT", "+"⟩, ⟨"b_1_RIGHT", "-"⟩] =
      .ok [(("a_1_LEFT_a_1_RIGHT" : String), (0 : Int)),
           (("b_1_LEFT_b_1_RIGHT" : String), (0 : Int))] ∧
    classify 20 [(("a_1_LEFT_a_1_RIGHT" : String), (0 : Int)),
                 (("b_1_LEFT_b_1_RIGHT" : String), (0 : Int))] =
      .ok ⟨[(1, 0)], 0, 2⟩ ∧
    ([((1 : Int), (0 : Int))].length ≠
      [(("a_1_LEFT_a_1_RIGHT" : String), (0 : Int)),
       (("b_1_LEFT_b_1_RIGHT" : String), (0 : Int))].length) :=
  ⟨rfl, rfl, by decide⟩

/-- Claim C7 (amended): when every amplicon key carries a parseable ordinal
token and those ordinals are pairwise distinct, the renumbered mapping is in
bijection with the counts mapping: it is exactly the counts list with each
key replaced by its ordinal, so it has the same cardinality.  Without the
distinctness hypothesis the renumbering can collapse keys (see the
counterexample). -/
theorem claim_C7_amended (md : Int) (counts : List (String × Int))
    (h1 : ∀ p ∈ counts, (parsedKey p.1).isSome)
    (h2 : (counts.map fun p => (parsedKey p.1).getD 0).Nodup) :
    ∃ res, classify md counts = .ok res ∧
      res.renamed = counts.map (fun p => ((parsedKey p.1).getD 0, p.2)) ∧
      res.renamed.length = counts.length := by
  obtain ⟨res, hok, hren⟩ := classifyLoop_ok_renamed counts md 0 0 [] h1 h2 (by simp)
  refine ⟨res, hok, by simpa using hren, ?_⟩
  rw [hren]
  simp

theorem claim_C7_amended_witness :
    ∃ res, classify 2 [(("s_1_LEFT_s_1_RIGHT" : String), (5 : Int))] = .ok res ∧
      res.renamed =
        [(("s_1_LEFT_s_1_RIGHT" : String), (5 : Int))].map
          (fun p => ((parsedKey p.1).getD 0, p.2)) ∧
      res.renamed.length = [(("s_1_LEFT_s_1_RIGHT" : String), (5 : Int))].length :=
  claim_C7_amended 2 [(("s_1_LEFT_s_1_RIGHT" : String), (5 : Int))] (by decide) (by decide)

/-- Claim C10: the ordinal key is the integer parse of the second underscore
token of the amplicon key, so for a valid scheme containing a base with no
underscore in its name that token is the literal LEFT and the renumbering
aborts with an uncaught conversion error. -/
theorem claim_C10 (ps : List PrimerRecord) (amps : List (String × Int)) (b : String)
    (md : Int) (hok : getSchemeAmplicons ps = .ok amps)
    (hb : b ∈ ps.map baseName) (hund : ('_' : Char) ∉ b.toList) :
    (splitChar '_' (ampliconKey b).toList).getD 1 [] =
      [('L' : Char), 'E', 'F', 'T'] ∧
    ∃ e, classify md amps = .error e := by
  refine ⟨by rw [splitChar_ampliconKey hund]; rfl, ?_⟩
  unfold getSchemeAmplicons at hok
  obtain ⟨hall, hshape⟩ := nameAmplicons_ok_shape hok
  have hkeys : b ∈ (countBases [] ps).map Prod.fst := by
    rw [mem_keys_countBases]
    exact Or.inr hb
  obtain ⟨bc, hbc, hbceq⟩ := List.mem_map.mp hkeys
  have hmem : (ampliconKey b, (0 : Int)) ∈ amps := by
    rw [hshape]
    exact List.mem_map.mpr ⟨bc, hbc, by rw [hbceq]⟩
  unfold classify
  exact classifyLoop_error_of_bad amps md 0 0 []
    ⟨(ampliconKey b, 0), hmem, parsedKey_ampliconKey_eq_none hund⟩

theorem claim_C10_witness :
    (splitChar '_' (ampliconKey ("A")).toList).getD 1 [] =
      [('L' : Char), 'E', 'F', 'T'] ∧
    ∃ e, classify 20 [(("A_LEFT_A_RIGHT" : String), (0 : Int))] = .error e :=
  claim_C10 [⟨"A_LEFT", "+"⟩, ⟨"A_RIGHT", "-"⟩]
    [(("A_LEFT_A_RIGHT" : String), (0 : Int))] ("A") 20 rfl (by decide) (by decide)

/-- Claim C2 counterexample: on the exact scheme of the claim (amplicon
bases `1` and `2`) the run does not complete: the renumbering parses the
second underscore token of `1_LEFT_1_RIGHT`, which is `LEFT`, and aborts
with an uncaught conversion error, so no counts are produced at all. -/
theorem claim_C2_counterexample :
    run [⟨"1_LEFT", "+"⟩, ⟨"1_RIGHT", "-"⟩, ⟨"2_LEFT", "+"⟩, ⟨"2_RIGHT", "-"⟩]
        [⟨0, 100, ("1_LEFT_1_RIGHT"), 0, 100, 1⟩,
         ⟨0, 100, ("1_LEFT_1_RIGHT"), 0, 100, 1⟩,
         ⟨0, 100, ("1_LEFT_1_RIGHT"), 0, 100, 1⟩,
         ⟨0, 100, ("2_LEFT_2_RIGHT"), 0, 100, 1⟩,
         ⟨0, 100, ("1_LEFT_1_RIGHT"), 0, 100, 0⟩,
         ⟨0, 100, ("1_LEFT_1_RIGHT"), 0, 50, 1⟩] 2 none =
      .error ("1_LEFT_1_RIGHT") := by
  have hA : alignSkip ⟨0, 100, ("1_LEFT_1_RIGHT"), 0, 100, 1⟩ = false := by
    rw [alignSkip_eq_intTest]
    decide
  have hB : alignSkip ⟨0, 100, ("2_LEFT_2_RIGHT"), 0, 100, 1⟩ = false := by
    rw [alignSkip_eq_intTest]
    decide
  have hD : alignSkip ⟨0, 100, ("1_LEFT_1_RIGHT"), 0, 50, 1⟩ = true := by
    rw [alignSkip_eq_intTest]
    decide
  have hcounts : getAmpliconCounts
      [(("1_LEFT_1_RIGHT" : String), (0 : Int)), (("2_LEFT_2_RIGHT" : String), (0 : Int))]
      [⟨0, 100, ("1_LEFT_1_RIGHT"), 0, 100, 1⟩,
       ⟨0, 100, ("1_LEFT_1_RIGHT"), 0, 100, 1⟩,
       ⟨0, 100, ("1_LEFT_1_RIGHT"), 0, 100, 1⟩,
       ⟨0, 100, ("2_LEFT_2_RIGHT"), 0, 100, 1⟩,
       ⟨0, 100, ("1_LEFT_1_RIGHT"), 0, 100, 0⟩,
       ⟨0, 100, ("1_LEFT_1_RIGHT"), 0, 50, 1⟩] =
      .ok [(("1_LEFT_1_RIGHT" : String), (3 : Int)),
           (("2_LEFT_2_RIGHT" : String), (1 : Int))] := by
    rw [getAmpliconCounts_cons_counted _ _ _ rfl hA (by decide),
      getAmpliconCounts_cons_counted _ _ _ rfl hA (by decide),
      getAmpliconCounts_cons_counted _ _ _ rfl hA (by decide),
      getAmpliconCounts_cons_counted _ _ _ rfl hB (by decide),
      getAmpliconCounts_cons_flag _ _ _ (by decide),
      getAmpliconCounts_cons_len _ _ _ rfl hD]
    rfl
  exact run_error_of_classify _ _ _ _ rfl hcounts rfl

/-- Claim C2 (amended): the end-to-end example holds once the amplicon bases
carry a numeric ordinal after an underscore (bases `s_1` and `s_2` instead
of `1` and `2`): 3 valid length-passing rows for the first amplicon and 1
for the second, with one row failing the pairing filter and one failing the
length filter, give renumbered counts 1 to 3 and 2 to 1, 4 mapped reads and
1 low-coverage amplicon at minimum depth 2, without aborting. -/
theorem claim_C2_amended :
    run [⟨"s_1_LEFT", "+"⟩, ⟨"s_1_RIGHT", "-"⟩, ⟨"s_2_LEFT", "+"⟩, ⟨"s_2_RIGHT", "-"⟩]
        [⟨0, 100, ("s_1_LEFT_s_1_RIGHT"), 0, 100, 1⟩,
         ⟨0, 100, ("s_1_LEFT_s_1_RIGHT"), 0, 100, 1⟩,
         ⟨0, 100, ("s_1_LEFT_s_1_RIGHT"), 0, 100, 1⟩,
         ⟨0, 100, ("s_2_LEFT_s_2_RIGHT"), 0, 100, 1⟩,
         ⟨0, 100, ("s_1_LEFT_s_1_RIGHT"), 0, 100, 0⟩,
         ⟨0, 100, ("s_1_LEFT_s_1_RIGHT"), 0, 50, 1⟩] 2 none =
      .ok (⟨[(1, 3), (2, 1)], 4, 1⟩,
        [(("# mapped reads" : String), StatValue.int 4),
         (("# low cov. amplicons" : String), StatValue.int 1)]) := by
  have hA : alignSkip ⟨0, 100, ("s_1_LEFT_s_1_RIGHT"), 0, 100, 1⟩ = false := by
    rw [alignSkip_eq_intTest]
    decide
  have hB : alignSkip ⟨0, 100, ("s_2_LEFT_s_2_RIGHT"), 0, 100, 1⟩ = false := by
    rw [alignSkip_eq_intTest]
    decide
  have hD : alignSkip ⟨0, 100, ("s_1_LEFT_s_1_RIGHT"), 0, 50, 1⟩ = true := by
    rw [alignSkip_eq_intTest]
    decide
  have hcounts : getAmpliconCounts
      [(("s_1_LEFT_s_1_RIGHT" : String), (0 : Int)),
       (("s_2_LEFT_s_2_RIGHT" : String), (0 : Int))]
      [⟨0, 100, ("s_1_LEFT_s_1_RIGHT"), 0, 100, 1⟩,
       ⟨0, 100, ("s_1_LEFT_s_1_RIGHT"), 0, 100, 1⟩,
       ⟨0, 100, ("s_1_LEFT_s_1_RIGHT"), 0, 100, 1⟩,
       ⟨0, 100, ("s_2_LEFT_s_2_RIGHT"), 0, 100, 1⟩,
       ⟨0, 100, ("s_1_LEFT_s_1_RIGHT"), 0, 100, 0⟩,
       ⟨0, 100, ("s_1_LEFT_s_1_RIGHT"), 0, 50, 1⟩] =
      .ok [(("s_1_LEFT_s_1_RIGHT" : String), (3 : Int)),
           (("s_2_LEFT_s_2_RIGHT" : String), (1 : Int))] := by
    rw [getAmpliconCounts_cons_counted _ _ _ rfl hA (by decide),
      getAmpliconCounts_cons_counted _ _ _ rfl hA (by decide),
      getAmpliconCounts_cons_counted _ _ _ rfl hA (by decide),
      getAmpliconCounts_cons_counted _ _ _ rfl hB (by decide),
      getAmpliconCounts_cons_flag _ _ _ (by decide),
      getAmpliconCounts_cons_len _ _ _ rfl hD]
    rfl
  exact run_eq_of _ _ _ _ rfl hcounts rfl

theorem mem_keys_foldl_setKey :
    ∀ (l : List (String × String)) (acc : List (String × StatValue)) (a : String),
      a ∈ ((l.foldl (fun acc kv => setKey kv.1 (StatValue.str kv.2) acc) acc).map
          Prod.fst) ↔
        a ∈ acc.map Prod.fst ∨ a ∈ l.map Prod.fst := by
  intro l
  induction l with
  | nil =>
    intro acc a
    simp
  | cons kv rest ih =>
    intro acc a
    simp only [List.foldl_cons, List.map_cons, List.mem_cons]
    rw [ih, mem_keys_setKey]
    tauto

/-- Claim C9: without a variant report the stats mapping has exactly the two
keys for mapped reads and low-coverage amplicons, in that order; with a
variant report its key set is exactly those two labels together with every
column of the first data row other than the input VCF file column. -/
theorem claim_C9 (res : RunResult) (fl : List (String × String)) :
    (buildStats res none).map Prod.fst =
      [("# mapped reads" : String), ("# low cov. amplicons" : String)] ∧
    (∀ k, k ∈ (buildStats res (some fl)).map Prod.fst ↔
      (k = ("# mapped reads") ∨ k = ("# low cov. amplicons") ∨
        (k ∈ fl.map Prod.fst ∧ k ≠ ("input VCF file")))) := by
  refine ⟨rfl, ?_⟩
  intro k
  have hb : buildStats res (some fl) =
      (getVCFreportInfo fl).foldl (fun acc kv => setKey kv.1 (StatValue.str kv.2) acc)
        [(("# mapped reads" : String), StatValue.int res.readCount),
         (("# low cov. amplicons" : String), StatValue.int res.dropouts)] := rfl
  rw [hb, mem_keys_foldl_setKey]
  unfold getVCFreportInfo
  simp only [List.map_cons, List.map_nil, List.mem_cons, List.not_mem_nil, or_false,
    List.mem_map, List.mem_filter, decide_eq_true_eq]
  aesop

theorem claim_C9_witness :
    ("num variants" : String) ∈
      ((buildStats ⟨[], 0, 0⟩
        (some [(("input VCF file"), ("f.vcf")), (("num variants"), ("7"))])).map
          Prod.fst) :=
  ((claim_C9 ⟨[], 0, 0⟩
    [(("input VCF file"), ("f.vcf")), (("num variants"), ("7"))]).2
      ("num variants")).mpr (by decide)

end ArticMqc
